import Mathlib

/-!
Verification development for the vold uevent core (`src/vold/uevent.c`, plus
the USB-mass-storage flag module in the same source collection).  The kernel
message parser and the subsystem handlers are embedded from the C source at a
faithful level of detail: memory is a list of bytes (as `Char`s), C strings
are NUL-terminated runs inside that memory, handler state is passed
explicitly, and crashing C behaviour (NULL dereference, reads running off the
model memory) is modelled with `Option`.  The block-device, media and
volume-manager registries live in other files of the repository that are not
part of the provided sources; those operations are modelled from the
specification, and each such definition carries a doc comment saying so.
-/

namespace Vold

/-- Byte view of a string literal: its list of characters. -/
def cs (s : String) : List Char := s.data

/-- The NUL terminator byte. -/
def nulC : Char := Char.ofNat 0

/-- `isPfx p l` : `p` is an initial segment of `l` (the
`strncmp(l, p, strlen(p)) == 0` test of the C code). -/
def isPfx : List Char → List Char → Bool
  | [], _ => true
  | _ :: _, [] => false
  | a :: as, b :: bs => a == b && isPfx as bs

theorem isPfx_append (p rest : List Char) : isPfx p (p ++ rest) = true := by
  induction p with
  | nil => rfl
  | cons a as ih => simp [isPfx, ih]

/-- Split a path into its `/`-separated components. -/
def splitComps : List Char → List (List Char)
  | [] => [[]]
  | c :: rest =>
    if c == '/' then [] :: splitComps rest
    else
      match splitComps rest with
      | [] => [[c]]
      | g :: gs => (c :: g) :: gs

/-- Re-join path components with `/`. -/
def joinComps : List (List Char) → List Char
  | [] => []
  | [g] => g
  | g :: gs => g ++ '/' :: joinComps gs

/-- ASCII decimal digit test, as in `atoi`. -/
def isDigitC (c : Char) : Bool := 48 ≤ c.toNat && c.toNat ≤ 57

/-- C `isspace` for the characters `atoi` skips. -/
def isSpaceC (c : Char) : Bool :=
  c == ' ' || c == '\t' || c == '\n' || (c.toNat == 11) || (c.toNat == 12) || c == '\r'

/-- Digit-accumulation loop of `atoi`: consume leading decimal digits. -/
def atoiLoop : List Char → Nat → Nat
  | [], acc => acc
  | c :: rest, acc =>
    if isDigitC c then atoiLoop rest (acc * 10 + (c.toNat - 48)) else acc

/-- C `atoi` on a NUL-free character list: skip whitespace, optional sign,
then accumulate leading digits (overflow of the C `int` is not reached by any
input considered here). -/
def c_atoi (l : List Char) : Int :=
  match l.dropWhile isSpaceC with
  | '-' :: rest => - (atoiLoop rest 0 : Int)
  | '+' :: rest => (atoiLoop rest 0 : Int)
  | rest => (atoiLoop rest 0 : Int)

/-- Conversion of the C `int` result of `atoi` to the `unsigned int` field it
is assigned to (two's-complement wraparound at 2^32). -/
def intToU32 (i : Int) : Nat := (i % 4294967296).toNat

/-! ## The uevent message parser (`process_uevent_message`) -/

/-- Capacity of the fixed parameter array `char *param[UEVENT_PARAMS_MAX]`
in `struct uevent`. -/
def UEVENT_PARAMS_MAX : Nat := 32

/-- The `enum uevent_action` of the source; a zero-initialised event has
action `action_add`. -/
inductive uevent_action
  | action_add
  | action_remove
  | action_change
  deriving DecidableEq, Repr

/-- The dedicated fields of `struct uevent` as filled in by the parser; the
`memset` zero-initialisation leaves `path`/`subsystem` NULL (`none`),
`action` zero (= `action_add`) and `seqnum` zero. -/
structure RawEvent where
  path : Option (List Char)
  action : uevent_action
  subsystem : Option (List Char)
  seqnum : Nat
  deriving DecidableEq, Repr

/-- Parser state: the event being filled, the sequence of writes into the
`param` array as (array index, string) pairs in program order, the running
`param_idx` counter, and the largest memory index the parser has examined. -/
structure PState where
  ev : RawEvent
  writes : List (Nat × List Char)
  paramIdx : Nat
  maxRead : Nat
  deriving DecidableEq, Repr

/-- Zero-initialised `struct uevent` dedicated fields. -/
def initRaw : RawEvent :=
  { path := none, action := .action_add, subsystem := none, seqnum := 0 }

/-- `strlen` of the NUL-terminated string starting at index `s` of the model
memory; `none` when no NUL exists before the memory ends (the C `strlen`
would run off accessible memory). -/
def strlenAt (mem : List Char) (s : Nat) : Option Nat :=
  let rest := mem.drop s
  let r := rest.takeWhile (fun c => c != nulC)
  if r.length = rest.length then none else some r.length

/-- The NUL-terminated string starting at index `s` of the model memory. -/
def strAt (mem : List Char) (s : Nat) : List Char :=
  (mem.drop s).takeWhile (fun c => c != nulC)

/-- Index (relative) of the first occurrence of `c`, scanning without any
bound, as in `for (p = s; *p != '@'; p++);`. -/
def scanFor (c : Char) : List Char → Option Nat
  | [] => none
  | x :: xs => if x == c then some 0 else (scanFor c xs).map (· + 1)

/-- Absolute index of the first occurrence of `c` at or after `s`; `none`
when the unbounded scan runs off the whole model memory. -/
def findAt (mem : List Char) (s : Nat) (c : Char) : Option Nat :=
  (scanFor c (mem.drop s)).map (s + ·)

/-- The `while (s < end)` loop of `process_uevent_message`.  `fuel` only
bounds the recursion; each iteration advances `s` by at least one, so
`fuel = cnt` never runs out.  `none` models a crash: a string scan that runs
off the model memory entirely.  Note the faithful details: the first
iteration scans for `'@'` without any bound (it may cross NUL terminators and
the declared length `cnt`), the `param` writes use the unchecked
`param_idx++`, and an `ACTION` value other than `add`/`change`/`remove`
leaves the zero-initialised action in place. -/
def parseLoop (mem : List Char) (cnt : Nat) :
    Nat → Nat → Bool → PState → Option PState
  | 0, _, _, ps => some ps
  | fuel + 1, s, first, ps =>
    if s < cnt then
      match strlenAt mem s with
      | none => none
      | some len =>
        let str0 := strAt mem s
        let ps1 := { ps with maxRead := max ps.maxRead (s + len) }
        if first then
          match findAt mem s '@' with
          | none => none
          | some i =>
            match strlenAt mem (i + 1) with
            | none => none
            | some plen =>
              let pstr := strAt mem (i + 1)
              let ps2 := { ps1 with
                ev := { ps1.ev with path := some pstr },
                maxRead := max ps1.maxRead (i + 1 + plen) }
              parseLoop mem cnt fuel (s + len + 1) false ps2
        else
          let ps2 :=
            if isPfx (cs "ACTION=") str0 then
              let a := str0.drop 7
              if a = cs "add" then
                { ps1 with ev := { ps1.ev with action := .action_add } }
              else if a = cs "change" then
                { ps1 with ev := { ps1.ev with action := .action_change } }
              else if a = cs "remove" then
                { ps1 with ev := { ps1.ev with action := .action_remove } }
              else ps1
            else if isPfx (cs "SEQNUM=") str0 then
              { ps1 with ev := { ps1.ev with seqnum := intToU32 (c_atoi (str0.drop 7)) } }
            else if isPfx (cs "SUBSYSTEM=") str0 then
              { ps1 with ev := { ps1.ev with subsystem := some (str0.drop 10) } }
            else
              { ps1 with
                writes := ps1.writes ++ [(ps1.paramIdx, str0)],
                paramIdx := ps1.paramIdx + 1 }
          parseLoop mem cnt fuel (s + len + 1) false ps2
    else some ps

/-- `process_uevent_message` after a successful `recv` of `cnt` bytes: parse
the buffer.  `mem` is the model of accessible memory starting at `buffer`;
its first `cnt` bytes are the received datagram and any bytes beyond are
whatever follows in memory.  `none` models a crash of the unbounded scans. -/
def process_uevent_message (mem : List Char) (cnt : Nat) : Option PState :=
  parseLoop mem cnt cnt 0 true { ev := initRaw, writes := [], paramIdx := 0, maxRead := 0 }

/-- Scratch check of the well-formed example buffer (removed later). -/
def bufC4 : List Char :=
  cs "X@/devices/foo" ++ [nulC] ++ cs "ACTION=add" ++ [nulC] ++ cs "SEQNUM=5" ++ [nulC] ++
  cs "SUBSYSTEM=block" ++ [nulC] ++ cs "DEVTYPE=disk" ++ [nulC] ++ cs "MAJOR=8" ++ [nulC] ++
  cs "MINOR=0" ++ [nulC]

/-- Memory for the no-`@` counterexample: the received 4 bytes are
`"abc\0"`; the bytes `"z@w\0"` beyond the declared length model whatever
happens to follow in memory. -/
def memNoAt : List Char := cs "abc" ++ [nulC] ++ cs "z@w" ++ [nulC]

/-- Memory carrying one `@`-path string and 33 non-dedicated parameters. -/
def memOverflow : List Char :=
  cs "X@p" ++ [nulC] ++ List.flatten (List.replicate 33 (cs "K=v" ++ [nulC]))

/-- `pat` occurs in the model memory starting at index `i`. -/
def matchesAt (mem : List Char) (i : Nat) (pat : List Char) : Bool :=
  isPfx pat (mem.drop i)

theorem isPfx_decomp {p l : List Char} (h : isPfx p l = true) :
    l = p ++ l.drop p.length := by
  induction p generalizing l with
  | nil => simp
  | cons a as ih =>
    cases l with
    | nil => simp [isPfx] at h
    | cons b bs =>
      simp only [isPfx, Bool.and_eq_true, beq_iff_eq] at h
      rcases h with ⟨rfl, h2⟩
      simpa using ih h2

theorem strAt_decomp (l : List Char)
    (h : (l.takeWhile (fun c => c != nulC)).length ≠ l.length) :
    ∃ rest, l = l.takeWhile (fun c => c != nulC) ++ nulC :: rest := by
  induction l with
  | nil => simp at h
  | cons c rest ih =>
    by_cases hc : (c != nulC) = true
    · simp only [List.takeWhile_cons, hc, if_true, List.length_cons] at h ⊢
      have h' : ((rest.takeWhile (fun c => c != nulC)).length ≠ rest.length) := by
        intro he; exact h (by omega)
      obtain ⟨r, hr⟩ := ih h'
      exact ⟨r, congrArg (List.cons c) hr⟩
    · have hcf : (c != nulC) = false := by
        revert hc; cases hb : (c != nulC) <;> simp
      have hceq : c = nulC := by
        have hbeq : (c == nulC) = true := by
          revert hcf; simp [bne]
        exact eq_of_beq hbeq
      refine ⟨rest, ?_⟩
      simp [List.takeWhile_cons, hcf, hceq]

/-- If a string processed by the parser loop starts with `ACTION=` and its
value is exactly `v`, then the bytes `"ACTION=" ++ v ++ "\0"` occur in memory
at the string's start. -/
theorem action_string_occurs (mem : List Char) (s : Nat) (v : List Char)
    (hlen : strlenAt mem s ≠ none)
    (hpfx : isPfx (cs "ACTION=") (strAt mem s) = true)
    (hval : (strAt mem s).drop 7 = v) :
    s < mem.length ∧ matchesAt mem s (cs "ACTION=" ++ v ++ [nulC]) = true := by
  have hne : ((mem.drop s).takeWhile (fun c => c != nulC)).length ≠ (mem.drop s).length := by
    intro he
    exact hlen (by simp [strlenAt, he])
  obtain ⟨rest, hdec⟩ := strAt_decomp (mem.drop s) hne
  have hstr : strAt mem s = cs "ACTION=" ++ v := by
    have := isPfx_decomp hpfx
    rw [show (cs "ACTION=").length = 7 from rfl] at this
    rw [hval] at this
    exact this
  have hdrop : mem.drop s = (cs "ACTION=" ++ v ++ [nulC]) ++ rest := by
    rw [hdec]
    rw [show strAt mem s = (mem.drop s).takeWhile (fun c => c != nulC) from rfl] at hstr
    rw [hstr]
    simp
  constructor
  · by_contra hge
    push_neg at hge
    have : mem.drop s = [] := List.drop_eq_nil_of_le hge
    rw [this] at hdrop
    have : (cs "ACTION=" ++ v ++ [nulC]).length + rest.length = 0 := by
      have := congrArg List.length hdrop
      simpa using this.symm
    simp at this
  · unfold matchesAt
    rw [hdrop]
    exact isPfx_append _ _

/-- Parse-loop invariant for the `ACTION` field: when none of the strings
`ACTION=add\0`, `ACTION=change\0`, `ACTION=remove\0` occurs anywhere in the
model memory, the loop never changes the event's action. -/
theorem parseLoop_action_invariant (mem : List Char) (cnt : Nat)
    (hno : ∀ i < mem.length,
      matchesAt mem i (cs "ACTION=add" ++ [nulC]) = false ∧
      matchesAt mem i (cs "ACTION=change" ++ [nulC]) = false ∧
      matchesAt mem i (cs "ACTION=remove" ++ [nulC]) = false) :
    ∀ fuel s first ps out, parseLoop mem cnt fuel s first ps = some out →
      out.ev.action = ps.ev.action := by
  intro fuel
  induction fuel with
  | zero =>
    intro s first ps out h
    simp [parseLoop] at h
    rw [← h]
  | succ n ih =>
    intro s first ps out h
    rw [parseLoop] at h
    by_cases hs : s < cnt
    · rw [if_pos hs] at h
      cases hlen : strlenAt mem s with
      | none => rw [hlen] at h; exact absurd h (by simp)
      | some len =>
        rw [hlen] at h
        simp only [] at h
        by_cases hf : first
        · rw [if_pos hf] at h
          cases hat : findAt mem s '@' with
          | none => rw [hat] at h; exact absurd h (by simp)
          | some i =>
            rw [hat] at h
            simp only [] at h
            cases hpl : strlenAt mem (i + 1) with
            | none => rw [hpl] at h; exact absurd h (by simp)
            | some plen =>
              rw [hpl] at h
              simp only [] at h
              have hact := ih _ _ _ _ h
              exact hact
        · rw [if_neg hf] at h
          by_cases hpa : isPfx (cs "ACTION=") (strAt mem s) = true
          · rw [if_pos hpa] at h
            have hlem := fun v hv => action_string_occurs mem s v (by simp [hlen]) hpa hv
            by_cases h1 : (strAt mem s).drop 7 = cs "add"
            · obtain ⟨hsl, hm⟩ := hlem _ h1
              have := (hno s hsl).1
              rw [show cs "ACTION=add" = cs "ACTION=" ++ cs "add" from rfl] at this
              rw [hm] at this
              exact absurd this (by simp)
            · rw [if_neg h1] at h
              by_cases h2 : (strAt mem s).drop 7 = cs "change"
              · obtain ⟨hsl, hm⟩ := hlem _ h2
                have := (hno s hsl).2.1
                rw [show cs "ACTION=change" = cs "ACTION=" ++ cs "change" from rfl] at this
                rw [hm] at this
                exact absurd this (by simp)
              · rw [if_neg h2] at h
                by_cases h3 : (strAt mem s).drop 7 = cs "remove"
                · obtain ⟨hsl, hm⟩ := hlem _ h3
                  have := (hno s hsl).2.2
                  rw [show cs "ACTION=remove" = cs "ACTION=" ++ cs "remove" from rfl]
                    at this
                  rw [hm] at this
                  exact absurd this (by simp)
                · rw [if_neg h3] at h
                  have hact := ih _ _ _ _ h
                  exact hact
          · rw [if_neg hpa] at h
            by_cases hps : isPfx (cs "SEQNUM=") (strAt mem s) = true
            · rw [if_pos hps] at h
              have hact := ih _ _ _ _ h
              exact hact
            · rw [if_neg hps] at h
              by_cases hpu : isPfx (cs "SUBSYSTEM=") (strAt mem s) = true
              · rw [if_pos hpu] at h
                have hact := ih _ _ _ _ h
                exact hact
              · rw [if_neg hpu] at h
                have hact := ih _ _ _ _ h
                exact hact
    · rw [if_neg hs] at h
      rw [← Option.some_inj.mp h]

/-! ## Dispatched events and `get_uevent_param` -/

/-- A `struct uevent` as seen by a handler: dedicated fields plus the
non-NULL prefix of the `param` array, in arrival order. -/
structure uevent where
  path : List Char
  action : uevent_action
  subsystem : List Char
  params : List (List Char)
  seqnum : Nat
  deriving DecidableEq, Repr

/-- `get_uevent_param`: scan the `param` array in order, return the suffix of
the first entry whose prefix (of the key's length) matches the key, skipping
the key and the `=` that the code assumes follows it; NULL (`none`) when no
entry matches. -/
def get_uevent_param (e : uevent) (name : List Char) : Option (List Char) :=
  (e.params.find? (fun p => isPfx name p)).map (fun p => p.drop (name.length + 1))

/-! ## Registry state and collaborator calls

The block-device registry (`blkdev.c`), media registry (`media.c`), the
volume manager (`volmgr.c`) and the sysfs helpers are repository code outside
the provided sources; they are modelled from the specification below.  The
handlers themselves are translated from `uevent.c`.  A handler returns
`none` for a NULL-pointer dereference crash, and otherwise its C return
code, the updated registry state, and the trace of collaborator calls it
made, in program order. -/

/-- A block device record.  Identity is `(major, minor)`; `devpath = none`
models a pending placeholder partition whose device path has not yet been
set; `diskMajor` identifies the parent disk `(diskMajor, 0)`. -/
structure Blk where
  major : Int
  minor : Int
  devpath : Option (List Char)
  devtype : List Char
  diskMajor : Int
  deriving DecidableEq, Repr

/-- A media (card) record: identity is its device path; it owns the devnos of
the block devices attached to it. -/
structure MediaRec where
  devpath : List Char
  name : List Char
  serial : List Char
  attached : List (Int × Int)
  deriving DecidableEq, Repr

/-- The mutable state of the daemon visible to these handlers: the two
registries and the two module-level USB-mass-storage flags of `ums.c`. -/
structure Vstate where
  blkdevs : List Blk
  medias : List MediaRec
  hostConnected : Bool
  umsEnabled : Bool
  deriving DecidableEq, Repr

/-- Collaborator calls a handler can make, recorded in program order. -/
inductive Call
  | truncatePath (path : List Char) (depth : Nat)
  | blkCreate (major minor : Int)
  | blkSetPath (major minor : Int)
  | mediaAddBlk (major minor : Int)
  | considerDisk (major : Int)
  | notifyEject (major minor : Int)
  | blkDestroy (major minor : Int)
  | mediaRemoveBlk (major minor : Int)
  | mediaCreate (path : List Char)
  | mediaDestroy (path : List Char)
  deriving DecidableEq, Repr

/-- Modelled from the spec: `truncate_sysfs_path` obtains the canonical
media-backing path by removing the trailing `n` path components of the sysfs
device path (2 below a disk node, 3 below a partition node, so both resolve
to the same backing path). -/
def truncate_sysfs_path (p : List Char) (n : Nat) : List Char :=
  let comps := splitComps p
  joinComps (comps.take (comps.length - n))

/-- Modelled from the spec: `MediaRegistry.lookupByPath` — exact-match lookup
of a media by its device path. -/
def media_lookup_by_path (st : Vstate) (p : List Char) : Option MediaRec :=
  st.medias.find? (fun m => m.devpath == p)

/-- Modelled from the spec: `BlockDeviceRegistry.lookupByDevNo`. -/
def blkdev_lookup_by_devno (st : Vstate) (maj mn : Int) : Option Blk :=
  st.blkdevs.find? (fun b => b.major == maj && b.minor == mn)

/-- Modelled from the spec: `BlockDeviceRegistry.setDevicePath` — update the
device path of the block device with the given devno (this is what resolves
a pending placeholder partition). -/
def blkdev_devpath_set (st : Vstate) (maj mn : Int) (p : List Char) : Vstate :=
  { st with blkdevs := st.blkdevs.map (fun b =>
      if b.major == maj && b.minor == mn then { b with devpath := some p } else b) }

/-- Modelled from the spec: `BlockDeviceRegistry.pendingPartitionCount` — the
number of the disk's partitions still registered as placeholders (device path
not yet set). -/
def blkdev_get_num_pending_partitions (st : Vstate) (diskMaj : Int) : Nat :=
  (st.blkdevs.filter (fun b =>
      b.diskMajor == diskMaj && !(b.minor == 0) && b.devpath == none)).length

/-- Modelled from the spec: `BlockDeviceRegistry.create`.  The new block
device is bound to the parent disk found by `(major, 0)`; when no such disk
exists the new device is itself the disk ("we are the disk").  While a newly
added disk's partition table is enumerated, a pending placeholder is created
for each of its `nparts` partitions (minors 1..nparts) not already
registered, to be resolved by that partition's own add event; `nparts` is the
partition count the kernel reports for the disk and is a parameter of the
model. -/
def blkdev_create (st : Vstate) (disk : Option Blk) (p : List Char)
    (maj mn : Int) (devtype : List Char) (nparts : Nat) : Blk × Vstate :=
  let dmaj := match disk with
    | some d => d.major
    | none => maj
  let nb : Blk := { major := maj, minor := mn, devpath := some p,
                    devtype := devtype, diskMajor := dmaj }
  let placeholders : List Blk :=
    if devtype == cs "disk" then
      ((List.range nparts).map (fun (i : Nat) => ((i : Int) + 1))).filterMap (fun pmn =>
        if (st.blkdevs.any (fun b => b.major == maj && b.minor == pmn)) || pmn == mn then
          none
        else
          some { major := maj, minor := pmn, devpath := none,
                 devtype := cs "partition", diskMajor := maj })
    else []
  (nb, { st with blkdevs := st.blkdevs ++ nb :: placeholders })

/-- Modelled from the spec: `MediaRegistry.addBlockDevice` — attach the devno
to the media's set of block devices; returns status 0. -/
def media_add_blkdev (st : Vstate) (mpath : List Char) (maj mn : Int) : Int × Vstate :=
  (0, { st with medias := st.medias.map (fun m =>
      if m.devpath == mpath then { m with attached := m.attached ++ [(maj, mn)] } else m) })

/-- Modelled from the spec: `MediaRegistry.lookupByDevice` — the media that
has the given devno attached. -/
def media_lookup_by_dev (st : Vstate) (maj mn : Int) : Option MediaRec :=
  st.medias.find? (fun m => m.attached.contains (maj, mn))

/-- Modelled from the spec: `MediaRegistry.removeBlockDevice`. -/
def media_remove_blkdev (st : Vstate) (mpath : List Char) (maj mn : Int) : Vstate :=
  { st with medias := st.medias.map (fun m =>
      if m.devpath == mpath then
        { m with attached := m.attached.filter (fun d => !(d == (maj, mn))) }
      else m) }

/-- Modelled from the spec: `BlockDeviceRegistry.destroy` — remove the block
device from the registry. -/
def blkdev_destroy (st : Vstate) (maj mn : Int) : Vstate :=
  { st with blkdevs := st.blkdevs.filter (fun b => !(b.major == maj && b.minor == mn)) }

/-- Modelled from the spec: `MediaRegistry.create` — register a new media
keyed by device path, with name and serial. -/
def media_create (st : Vstate) (p nm serial : List Char) : MediaRec × Vstate :=
  let m : MediaRec := { devpath := p, name := nm, serial := serial, attached := [] }
  (m, { st with medias := st.medias ++ [m] })

/-- Modelled from the spec: `MediaRegistry.destroy` — deregister the media. -/
def media_destroy (st : Vstate) (mpath : List Char) : Vstate :=
  { st with medias := st.medias.filter (fun m => !(m.devpath == mpath)) }

/-! ## The ums flag module -/

/-- `ums_enabled_set`: set the mass-storage-enabled flag (the accompanying
`send_msg` notification is external and carries no state in this core). -/
def ums_enabled_set (st : Vstate) (enabled : Bool) : Vstate :=
  { st with umsEnabled := enabled }

/-- `ums_hostconnected_set`: record the host-connection flag; a disconnect
also forces the enabled flag off via `ums_enabled_set(false)`. -/
def ums_hostconnected_set (st : Vstate) (connected : Bool) : Vstate :=
  let st1 := { st with hostConnected := connected }
  if !connected then ums_enabled_set st1 false else st1

/-! ## Subsystem handlers -/

/-- `handle_switch_event`: fetch `SWITCH_NAME` and `SWITCH_STATE`; a NULL
name crashes in `strcmp` (`none`); only `usb_mass_storage` is acted on, with
state `online` mapping to connected and anything else (a NULL state also
crashes there) to disconnected; other names are logged and ignored. -/
def handle_switch_event (st : Vstate) (e : uevent) : Option (Int × Vstate × List Call) :=
  match get_uevent_param e (cs "SWITCH_NAME") with
  | none => none
  | some nm =>
    if nm = cs "usb_mass_storage" then
      match get_uevent_param e (cs "SWITCH_STATE") with
      | none => none
      | some stt =>
        if stt = cs "online" then some (0, ums_hostconnected_set st true, [])
        else some (0, ums_hostconnected_set st false, [])
    else some (0, st, [])

/-- Path-truncation depth chosen by `handle_block_event` from `DEVTYPE`:
2 below a disk node, 3 below a partition node. -/
def devtype_depth (dt : List Char) : Nat :=
  if dt == cs "disk" then 2 else 3

/-- `handle_block_event`.  A NULL `DEVTYPE`, or a NULL `MAJOR`/`MINOR` once a
media was found, crashes (`strcmp`/`atoi` on NULL).  `nparts` is the
partition count the kernel reports for a newly created disk (used only by the
spec-modelled `blkdev_create`). -/
def handle_block_event (nparts : Nat) (st : Vstate) (e : uevent) :
    Option (Int × Vstate × List Call) :=
  match get_uevent_param e (cs "DEVTYPE") with
  | none => none
  | some devtype =>
    if devtype == cs "disk" || devtype == cs "partition" then
      let n : Nat := devtype_depth devtype
      let mediapath := truncate_sysfs_path e.path n
      let tr0 := [Call.truncatePath e.path n]
      match media_lookup_by_path st mediapath with
      | none => some (0, st, tr0)
      | some media =>
        match get_uevent_param e (cs "MAJOR"), get_uevent_param e (cs "MINOR") with
        | some majs, some mins =>
          let maj := c_atoi majs
          let mn := c_atoi mins
          match e.action with
          | .action_add =>
            let disk0 := blkdev_lookup_by_devno st maj 0
            match blkdev_lookup_by_devno st maj mn with
            | some b =>
              let st1 := blkdev_devpath_set st maj mn e.path
              let st2 := (media_add_blkdev st1 media.devpath maj mn).2
              if blkdev_get_num_pending_partitions st2 b.diskMajor == 0 then
                some (0, st2, tr0 ++ [Call.blkSetPath maj mn, Call.mediaAddBlk maj mn,
                                      Call.considerDisk b.diskMajor])
              else
                some (0, st2, tr0 ++ [Call.blkSetPath maj mn, Call.mediaAddBlk maj mn])
            | none =>
              let st1 := (blkdev_create st disk0 e.path maj mn devtype nparts).2
              let st2 := (media_add_blkdev st1 media.devpath maj mn).2
              some (0, st2, tr0 ++ [Call.blkCreate maj mn, Call.mediaAddBlk maj mn])
          | .action_remove =>
            match blkdev_lookup_by_devno st maj mn with
            | none => some (0, st, tr0)
            | some _ => some (0, st, tr0 ++ [Call.notifyEject maj mn])
          | .action_change => some (0, st, tr0)
        | _, _ => none
    else some (-22, st, [])

/-- `_cb_blkdev_ok_to_destroy`: the deferred completion the volume manager
invokes later; it detaches the block device from its media (when one still
has it) and destroys it. -/
def cb_blkdev_ok_to_destroy (st : Vstate) (maj mn : Int) : Vstate × List Call :=
  match media_lookup_by_dev st maj mn with
  | some m =>
    (blkdev_destroy (media_remove_blkdev st m.devpath maj mn) maj mn,
     [Call.mediaRemoveBlk maj mn, Call.blkDestroy maj mn])
  | none => (blkdev_destroy st maj mn, [Call.blkDestroy maj mn])

/-- `handle_mmc_event`.  On add, a NULL `MMC_TYPE` crashes in `strcmp`; types
other than `SD`/`MMC` return success with no effect; a NULL `MMC_NAME`
crashes inside the media creation.  `serial` is the value the sysfs attribute
reader returns for the card (an external input of this core).  On remove, a
path with no registered media is an error (-1); otherwise the media is
destroyed. -/
def handle_mmc_event (serial : List Char) (st : Vstate) (e : uevent) :
    Option (Int × Vstate × List Call) :=
  match e.action with
  | .action_add =>
    match get_uevent_param e (cs "MMC_TYPE") with
    | none => none
    | some t =>
      if !(t == cs "SD") && !(t == cs "MMC") then some (0, st, [])
      else
        match get_uevent_param e (cs "MMC_NAME") with
        | none => none
        | some nm =>
          some (0, (media_create st e.path nm serial).2, [Call.mediaCreate e.path])
  | .action_remove =>
    match media_lookup_by_path st e.path with
    | none => some (-1, st, [])
    | some _ => some (0, media_destroy st e.path, [Call.mediaDestroy e.path])
  | .action_change => some (0, st, [])

/-- Successive dispatches of a list of block-subsystem events (the daemon's
receive loop keeps processing events regardless of per-event result codes);
`none` when any handler crashes, else the final state and the concatenated
call trace. -/
def runBlock (nparts : Nat) (st : Vstate) : List uevent → Option (Vstate × List Call)
  | [] => some (st, [])
  | e :: rest =>
    match handle_block_event nparts st e with
    | none => none
    | some (_rc, st1, tr) =>
      match runBlock nparts st1 rest with
      | none => none
      | some (st2, tr2) => some (st2, tr ++ tr2)

/-- Number of `considerDisk` calls in a trace. -/
def countConsider (tr : List Call) : Nat :=
  (tr.filter (fun c => match c with | Call.considerDisk _ => true | _ => false)).length

/-- Number of `notifyEject` calls in a trace. -/
def countEject (tr : List Call) : Nat :=
  (tr.filter (fun c => match c with | Call.notifyEject _ _ => true | _ => false)).length

/-- Number of `blkDestroy` calls in a trace. -/
def countDestroy (tr : List Call) : Nat :=
  (tr.filter (fun c => match c with | Call.blkDestroy _ _ => true | _ => false)).length

/-- Number of `mediaRemoveBlk` calls in a trace. -/
def countMediaRemove (tr : List Call) : Nat :=
  (tr.filter (fun c => match c with | Call.mediaRemoveBlk _ _ => true | _ => false)).length

theorem countConsider_append (t1 t2 : List Call) :
    countConsider (t1 ++ t2) = countConsider t1 + countConsider t2 := by
  simp [countConsider, List.filter_append]

/-! ## Enumeration scenario: one disk and its partitions on one media

Concrete sysfs layout for the scenario: the media's backing path is `/m/c`,
the disk's device node is `/m/c/block/d` (media path = drop 2 trailing
components) and its partitions' nodes are below it (drop 3). -/

/-- Backing path of the scenario media. -/
def mediaPathS : List Char := cs "/m/c"

/-- Sysfs path of the scenario disk. -/
def diskPathS : List Char := cs "/m/c/block/d"

/-- Sysfs path used by the scenario partition add events. -/
def partPathS : List Char := cs "/m/c/block/d/px"

/-- The scenario media record with a given attached list. -/
def mediaS (att : List (Int × Int)) : MediaRec :=
  { devpath := mediaPathS, name := cs "card", serial := cs "sn", attached := att }

/-- Initial state: the media is registered (its mmc add was processed) and no
block devices exist yet. -/
def stS0 : Vstate :=
  { blkdevs := [], medias := [mediaS []], hostConnected := false, umsEnabled := false }

/-- The disk's add event (major 8, minor 0). -/
def diskEv : uevent :=
  { path := diskPathS, action := .action_add, subsystem := cs "block",
    params := [cs "DEVTYPE=disk", cs "MAJOR=8", cs "MINOR=0"], seqnum := 1 }

/-- A partition add event whose `MINOR` parameter value is the string `s`. -/
def partEv (s : List Char) : uevent :=
  { path := partPathS, action := .action_add, subsystem := cs "block",
    params := [cs "DEVTYPE=partition", cs "MAJOR=8", cs "MINOR=" ++ s], seqnum := 2 }

/-- The scenario disk's registry record. -/
def diskBlkS : Blk :=
  { major := 8, minor := 0, devpath := some diskPathS, devtype := cs "disk", diskMajor := 8 }

/-- A scenario partition record with minor `mn` and device path `d`. -/
def partBlkS (mn : Int) (d : Option (List Char)) : Blk :=
  { major := 8, minor := mn, devpath := d, devtype := cs "partition", diskMajor := 8 }

/-- Registry state after the disk's add and the adds of the partitions whose
minors are in `done`: the disk plus one record per partition, resolved
(device path set) exactly for the minors in `done`; the media has attached
list `att`. -/
def invSt (k : Nat) (done : List Int) (att : List (Int × Int)) : Vstate :=
  { blkdevs := diskBlkS :: (List.range k).map (fun (i : Nat) =>
      partBlkS ((i : Int) + 1)
        (if done.contains ((i : Int) + 1) then some partPathS else none)),
    medias := [mediaS att], hostConnected := false, umsEnabled := false }

/-- Pending-partition count of the scenario disk as a function of `done`. -/
def pend (k : Nat) (done : List Int) : Nat :=
  ((List.range k).filter (fun (i : Nat) => !(done.contains ((i : Int) + 1)))).length

theorem filterMap_all_some {α β : Type} (f : α → Option β) (g : α → β) (l : List α)
    (h : ∀ a ∈ l, f a = some (g a)) : l.filterMap f = l.map g := by
  induction l with
  | nil => rfl
  | cons a rest ih =>
    rw [List.filterMap_cons, h a (by simp), List.map_cons,
      ih (fun x hx => h x (by simp [hx]))]

theorem partEv_devtype (s : List Char) :
    get_uevent_param (partEv s) (cs "DEVTYPE") = some (cs "partition") := by
  simp only [get_uevent_param, partEv, List.find?]
  rw [show isPfx (cs "DEVTYPE") (cs "DEVTYPE=partition") = true from by decide]
  rfl

theorem partEv_major (s : List Char) :
    get_uevent_param (partEv s) (cs "MAJOR") = some (cs "8") := by
  simp only [get_uevent_param, partEv, List.find?]
  rw [show isPfx (cs "MAJOR") (cs "DEVTYPE=partition") = false from by decide,
    show isPfx (cs "MAJOR") (cs "MAJOR=8") = true from by decide]
  rfl

theorem partEv_minor (s : List Char) :
    get_uevent_param (partEv s) (cs "MINOR") = some s := by
  have hsplit : cs "MINOR=" ++ s = cs "MINOR" ++ '=' :: s := by
    rw [show cs "MINOR=" = cs "MINOR" ++ ['='] from by decide]
    simp
  simp only [get_uevent_param, partEv, List.find?]
  rw [show isPfx (cs "MINOR") (cs "DEVTYPE=partition") = false from by decide,
    show isPfx (cs "MINOR") (cs "MAJOR=8") = false from by decide]
  rw [hsplit, isPfx_append]
  rw [show (cs "MINOR").length + 1 = (cs "MINOR=").length from by decide]
  rw [← hsplit]
  have hmap : Option.map (fun p => List.drop (cs "MINOR=").length p) (some (cs "MINOR=" ++ s))
      = some (List.drop (cs "MINOR=").length (cs "MINOR=" ++ s)) := rfl
  rw [hmap, List.drop_left]

/-- Processing the disk's add from the empty registry: the disk is created
together with pending placeholders for its `k` partitions, attached to the
media, and `considerDisk` is not called. -/
theorem disk_add_step (k : Nat) :
    handle_block_event k stS0 diskEv =
      some (0, invSt k [] [(8, 0)],
        [Call.truncatePath diskPathS 2, Call.blkCreate 8 0, Call.mediaAddBlk 8 0]) := by
  have e1 : get_uevent_param diskEv (cs "DEVTYPE") = some (cs "disk") := by decide
  have e2 : get_uevent_param diskEv (cs "MAJOR") = some (cs "8") := by decide
  have e3 : get_uevent_param diskEv (cs "MINOR") = some (cs "0") := by decide
  have e4 : truncate_sysfs_path diskEv.path 2 = mediaPathS := by decide
  have e5 : media_lookup_by_path stS0 mediaPathS = some (mediaS []) := by decide
  have e6 : c_atoi (cs "8") = (8 : Int) := by decide
  have e7 : c_atoi (cs "0") = (0 : Int) := by decide
  have e8 : blkdev_lookup_by_devno stS0 8 0 = none := by decide
  have ha : diskEv.action = .action_add := rfl
  have hb1 : (((cs "disk" : List Char) == cs "disk") || (cs "disk" == cs "partition")) = true := by
    decide
  have hb2 : devtype_depth (cs "disk") = 2 := by decide
  have hb3 : ((cs "disk" : List Char) == cs "disk") = true := by decide
  have hsb : stS0.blkdevs = [] := rfl
  have hph : ((List.range k).map (fun (i : Nat) => ((i : Int) + 1))).filterMap (fun pmn =>
        if ((false : Bool) || pmn == (0 : Int)) then none
        else some { major := 8, minor := pmn, devpath := none,
                    devtype := cs "partition", diskMajor := (8 : Int) }) =
      (List.range k).map (fun (i : Nat) => partBlkS ((i : Int) + 1) none) := by
    rw [List.filterMap_map]
    refine filterMap_all_some _ _ _ ?_
    intro i _
    have hz : (((i : Int) + 1) == (0 : Int)) = false := by
      have hnz : ((i : Int) + 1) ≠ 0 := by omega
      exact beq_eq_false_iff_ne.mpr hnz
    simp [Function.comp, hz, partBlkS]
  have hinv : invSt k [] [(8, 0)] =
      { blkdevs := diskBlkS ::
          (List.range k).map (fun (i : Nat) => partBlkS ((i : Int) + 1) none),
        medias := [mediaS [(8, 0)]], hostConnected := false, umsEnabled := false } := by
    simp only [invSt]
    simp [List.contains, List.elem]
  have hsm : stS0.medias = [mediaS []] := rfl
  have hdp : (mediaS []).devpath = mediaPathS := rfl
  have hmap2 : (List.map (fun m =>
        if (m.devpath == mediaPathS) = true
        then { m with attached := m.attached ++ [((8 : Int), (0 : Int))] } else m)
      [mediaS []]) = [mediaS [(8, 0)]] := by decide
  rw [hinv]
  simp only [handle_block_event, e1, hb1, hb2, eq_self_iff_true, if_true, e4, e5, e2, e3,
    e6, e7, ha, e8]
  simp only [blkdev_create, media_add_blkdev, hb3, hsb, hsm, hdp, List.any_nil]
  rw [hph, hmap2]
  rfl


/-- `find?` over the partition records of the invariant state returns the
record with minor `m`, whatever its devpath function says. -/
theorem find_part (k : Nat) (f : Nat → Option (List Char)) (m : Nat)
    (h1 : 1 ≤ m) (hk : m ≤ k) :
    ((List.range k).map (fun (i : Nat) => partBlkS ((i : Int) + 1) (f i))).find?
        (fun b => b.major == (8 : Int) && b.minor == ((m : Int))) =
      some (partBlkS ((m : Int)) (f (m - 1))) := by
  induction k with
  | zero => omega
  | succ n ih =>
    rw [List.range_succ, List.map_append, List.find?_append]
    by_cases hm : m ≤ n
    · rw [ih hm]
      rfl
    · have hmeq : m = n + 1 := by omega
      have hnone : ((List.range n).map
            (fun (i : Nat) => partBlkS ((i : Int) + 1) (f i))).find?
          (fun b => b.major == (8 : Int) && b.minor == ((m : Int))) = none := by
        rw [List.find?_eq_none]
        intro b hb
        simp only [List.mem_map, List.mem_range] at hb
        obtain ⟨i, hi, rfl⟩ := hb
        simp only [partBlkS, Bool.and_eq_true, beq_iff_eq, not_and]
        intro _ hcon
        omega
      rw [hnone]
      have hpred : ((partBlkS ((n : Int) + 1) (f n)).major == (8 : Int)
          && (partBlkS ((n : Int) + 1) (f n)).minor == ((m : Int))) = true := by
        have hmaj : (partBlkS ((n : Int) + 1) (f n)).major = (8 : Int) := rfl
        have hmin : (partBlkS ((n : Int) + 1) (f n)).minor = (n : Int) + 1 := rfl
        rw [hmaj, hmin]
        simp only [Bool.and_eq_true, beq_iff_eq]
        exact ⟨by simp, by omega⟩
      simp only [Option.orElse, List.map_cons, List.map_nil, List.find?, hpred]
      subst hmeq
      have hc : ((n + 1 : Nat) : Int) = (n : Int) + 1 := by push_cast; ring
      rw [hc]
      simp

/-- Looking up devno `(8, m)` in the invariant state finds the partition
record with minor `m`. -/
theorem lookup_inv (k : Nat) (done : List Int) (att : List (Int × Int)) (m : Nat)
    (h1 : 1 ≤ m) (hk : m ≤ k) :
    blkdev_lookup_by_devno (invSt k done att) 8 ((m : Int)) =
      some (partBlkS ((m : Int))
        (if done.contains ((m : Int)) then some partPathS else none)) := by
  have hd : ((diskBlkS.major == (8 : Int)) && (diskBlkS.minor == ((m : Int)))) = false := by
    have : ¬((diskBlkS.major = (8 : Int)) ∧ (diskBlkS.minor = ((m : Int)))) := by
      simp only [diskBlkS]
      intro h
      omega
    simp only [Bool.and_eq_true, beq_iff_eq] at *
    revert this
    cases h8 : (diskBlkS.major == (8 : Int)) <;> cases hm : (diskBlkS.minor == ((m : Int))) <;>
      simp_all [beq_iff_eq]
  simp only [blkdev_lookup_by_devno, invSt, List.find?, hd]
  rw [find_part k _ m h1 hk]
  have hc : ((m - 1 : Nat) : Int) + 1 = (m : Int) := by omega
  rw [hc]

/-- Setting the devpath of partition `m` moves the invariant from `done` to
`m :: done`. -/
theorem setpath_inv (k : Nat) (done : List Int) (att : List (Int × Int)) (m : Nat)
    (h1 : 1 ≤ m) (hk : m ≤ k) :
    blkdev_devpath_set (invSt k done att) 8 ((m : Int)) partPathS
      = invSt k (((m : Int)) :: done) att := by
  simp only [blkdev_devpath_set, invSt, List.map_cons, List.map_map]
  have hd : ((diskBlkS.major == (8 : Int)) && (diskBlkS.minor == ((m : Int)))) = false := by
    simp only [diskBlkS, Bool.and_eq_true]
    cases hm : ((0 : Int) == ((m : Int)))
    · simp
    · have := beq_iff_eq.mp hm
      omega
  rw [hd]
  simp only [Bool.false_eq_true, if_false]
  congr 1
  refine congrArg (List.cons diskBlkS) ?_
  apply List.map_congr_left
  intro i hi
  simp only [List.mem_range] at hi
  simp only [Function.comp, partBlkS, List.contains_cons]
  by_cases hc : ((i : Int) + 1) = ((m : Int))
  · simp [hc]
  · simp [hc]

/-- Attaching a devno to the media moves the invariant's attached list. -/
theorem media_add_inv (k : Nat) (done : List Int) (att : List (Int × Int)) (mn : Int) :
    (media_add_blkdev (invSt k done att) (mediaS att).devpath 8 mn).2
      = invSt k done (att ++ [(8, mn)]) := rfl

/-- The pending-partition count of the invariant state is `pend`. -/
theorem pend_inv (k : Nat) (done : List Int) (att : List (Int × Int)) :
    blkdev_get_num_pending_partitions (invSt k done att) 8 = pend k done := by
  simp only [blkdev_get_num_pending_partitions, invSt, pend, List.filter_cons]
  have hd : ((diskBlkS.diskMajor == (8 : Int)) && !(diskBlkS.minor == (0 : Int))
      && (diskBlkS.devpath == none)) = false := by decide
  rw [hd]
  simp only [Bool.false_eq_true, if_false, List.filter_map, List.length_map]
  congr 1
  apply List.filter_congr
  intro i hi
  simp only [List.mem_range] at hi
  simp only [Function.comp, partBlkS]
  have h8 : (((8 : Int)) == (8 : Int)) = true := by simp
  have hmn : (((i : Int) + 1) == (0 : Int)) = false := by
    simp [beq_iff_eq]
    omega
  have hsn : ((some partPathS : Option (List Char)) == none) = false := rfl
  have hnn : ((none : Option (List Char)) == none) = true := rfl
  by_cases hc : ((i : Int) + 1) ∈ done
  · simp [h8, hmn, hc, hsn]
  · simp [h8, hmn, hc, hnn]

/-- Processing one partition add with `MINOR` string `s` evaluating to `m`:
the placeholder's devpath is set, the devno is attached to the media, and
`considerDisk` is called exactly when this attachment drives the pending
count to zero. -/
theorem part_add_step (k : Nat) (done : List Int) (att : List (Int × Int))
    (s : List Char) (m : Nat) (hs : c_atoi s = (m : Int)) (h1 : 1 ≤ m) (hk : m ≤ k) :
    handle_block_event k (invSt k done att) (partEv s) =
      some (0, invSt k (((m : Int)) :: done) (att ++ [(8, (m : Int))]),
        [Call.truncatePath partPathS 3, Call.blkSetPath 8 ((m : Int)),
         Call.mediaAddBlk 8 ((m : Int))] ++
        (if pend k (((m : Int)) :: done) == 0 then [Call.considerDisk 8] else [])) := by
  have e1 := partEv_devtype s
  have e2 := partEv_major s
  have e3 := partEv_minor s
  have hb1 : (((cs "partition" : List Char) == cs "disk")
      || (cs "partition" == cs "partition")) = true := by decide
  have hb2 : devtype_depth (cs "partition") = 3 := by decide
  have hpp : (partEv s).path = partPathS := rfl
  have e4 : truncate_sysfs_path partPathS 3 = mediaPathS := by decide
  have e5 : media_lookup_by_path (invSt k done att) mediaPathS = some (mediaS att) := rfl
  have e6 : c_atoi (cs "8") = (8 : Int) := by decide
  have ha : (partEv s).action = .action_add := rfl
  have hlk := lookup_inv k done att m h1 hk
  have hsp := setpath_inv k done att m h1 hk
  have hma := media_add_inv k (((m : Int)) :: done) att ((m : Int))
  have hpe := pend_inv k (((m : Int)) :: done) (att ++ [(8, ((m : Int)))])
  have hbd : ∀ d, (partBlkS ((m : Int)) d).diskMajor = (8 : Int) := fun d => rfl
  simp only [handle_block_event, e1, hb1, hb2, eq_self_iff_true, if_true, hpp, e4, e5,
    e2, e3, e6, hs, ha, hlk]
  simp only [hsp, hma, hpe, hbd]
  by_cases hz : (pend k (((m : Int)) :: done) == 0) = true
  · simp only [hz, if_true]
    rfl
  · simp only [Bool.not_eq_true] at hz
    simp only [hz, Bool.false_eq_true, if_false]
    rfl

theorem pend_nil (k : Nat) : pend k [] = k := by
  simp [pend]

theorem pend_succ (n : Nat) (d : List Int) :
    pend (n + 1) d = pend n d + (if d.contains ((n : Int) + 1) then 0 else 1) := by
  simp only [pend, List.range_succ, List.filter_append, List.length_append]
  congr 1
  by_cases hc : ((n : Int) + 1) ∈ d
  · simp [hc]
  · simp [hc]

/-- Resolving a fresh in-range partition decrements the pending count. -/
theorem pend_dec (k : Nat) (done : List Int) (m : Nat)
    (h1 : 1 ≤ m) (hk : m ≤ k) (hnd : ((m : Int)) ∉ done) :
    pend k (((m : Int)) :: done) + 1 = pend k done := by
  induction k with
  | zero => omega
  | succ n ih =>
    rw [pend_succ, pend_succ]
    by_cases hm : m ≤ n
    · have hne : (((n : Int) + 1) == ((m : Int))) = false := by
        simp only [beq_eq_false_iff_ne, ne_eq]
        omega
      have hcc : ((((m : Int)) :: done).contains ((n : Int) + 1))
          = (done.contains ((n : Int) + 1)) := by
        rw [List.contains_cons, hne, Bool.false_or]
      rw [hcc]
      have hih := ih hm
      omega
    · have hmeq : m = n + 1 := by omega
      have h1' : ((((m : Int)) :: done).contains ((n : Int) + 1)) = true := by
        rw [List.contains_cons]
        have hbt : (((n : Int) + 1) == ((m : Int))) = true := by
          simp only [beq_iff_eq]
          omega
        simp [hbt]
      have hmm : ((n : Int) + 1) = ((m : Int)) := by omega
      have h2' : (done.contains ((n : Int) + 1)) = false := by
        rw [hmm]
        simpa using hnd
      have hpc : pend n (((m : Int)) :: done) = pend n done := by
        simp only [pend]
        apply congrArg List.length
        apply List.filter_congr
        intro i hi
        simp only [List.mem_range] at hi
        rw [List.contains_cons]
        have hne : (((i : Int) + 1) == ((m : Int))) = false := by
          simp only [beq_eq_false_iff_ne, ne_eq]
          omega
        rw [hne, Bool.false_or]
      rw [h1', h2', hpc]
      simp

/-- The partition-enumeration run: from the invariant state, processing add
events for fresh in-range partitions calls `considerDisk` exactly once when
the run resolves every remaining pending partition, and never before. -/
theorem run_parts (k : Nat) (todo : List (List Char)) :
    ∀ (done : List Int) (att : List (Int × Int)),
      (∀ s ∈ todo, ∃ m : Nat, 1 ≤ m ∧ m ≤ k ∧ c_atoi s = (m : Int)) →
      (done ++ todo.map c_atoi).Nodup →
      pend k done = todo.length →
      ∃ stF tr, runBlock k (invSt k done att) (todo.map partEv) = some (stF, tr) ∧
        countConsider tr = (if todo.isEmpty then 0 else 1) := by
  induction todo with
  | nil =>
    intro done att _ _ _
    exact ⟨invSt k done att, [], rfl, rfl⟩
  | cons s rest ih =>
    intro done att hrange hnd hpend
    obtain ⟨m, h1, hk2, hs⟩ := hrange s (by simp)
    have hperm : (done ++ (c_atoi s :: rest.map c_atoi)).Perm
        (c_atoi s :: (done ++ rest.map c_atoi)) := List.perm_middle
    have hnd2 : (c_atoi s :: (done ++ rest.map c_atoi)).Nodup := hperm.nodup hnd
    rw [hs] at hnd2
    have hmnotin : ((m : Int)) ∉ done := fun hmem =>
      (List.nodup_cons.mp hnd2).1 (List.mem_append.mpr (Or.inl hmem))
    have hstep := part_add_step k done att s m hs h1 hk2
    have hdec := pend_dec k done m h1 hk2 hmnotin
    have hpend' : pend k (((m : Int)) :: done) = rest.length := by
      simp only [List.length_cons] at hpend
      omega
    have hih := ih (((m : Int)) :: done) (att ++ [(8, ((m : Int)))])
        (fun x hx => hrange x (by simp [hx])) hnd2 hpend'
    obtain ⟨stF, tr, hrun, hcount⟩ := hih
    refine ⟨stF, ([Call.truncatePath partPathS 3, Call.blkSetPath 8 ((m : Int)),
        Call.mediaAddBlk 8 ((m : Int))] ++
        (if pend k (((m : Int)) :: done) == 0 then [Call.considerDisk 8] else [])) ++ tr,
      ?_, ?_⟩
    · simp only [List.map_cons, runBlock, hstep, hrun]
    · cases rest with
      | nil =>
        have hz : pend k (((m : Int)) :: done) = 0 := by
          simpa using hpend'
        simp only [List.isEmpty_nil, if_true] at hcount
        simp only [List.isEmpty_cons, Bool.false_eq_true, if_false]
        rw [countConsider_append, countConsider_append, hcount, hz]
        rfl
      | cons r rs =>
        have hz : (pend k (((m : Int)) :: done) == 0) = false := by
          rw [hpend']
          simp
        simp only [List.isEmpty_cons, Bool.false_eq_true, if_false] at hcount ⊢
        rw [countConsider_append, countConsider_append, hcount, hz]
        rfl


/-- From the handler code alone: whenever a block-event dispatch emits a
`considerDisk` call, the pending-partition count of that disk in the
post-state is zero — the call is guarded by the `== 0` test and nothing after
the test mutates the registry. -/
theorem consider_only_at_zero (np : Nat) (st : Vstate) (e : uevent)
    (rc : Int) (stq : Vstate) (tr : List Call) (d : Int)
    (h : handle_block_event np st e = some (rc, stq, tr))
    (hc : Call.considerDisk d ∈ tr) :
    blkdev_get_num_pending_partitions stq d = 0 := by
  simp only [handle_block_event] at h
  cases hdt : get_uevent_param e (cs "DEVTYPE") with
  | none => rw [hdt] at h; exact absurd h (by simp)
  | some devtype =>
    rw [hdt] at h
    simp only [] at h
    by_cases hok : ((devtype == cs "disk") || (devtype == cs "partition")) = true
    case neg =>
      rw [if_neg hok] at h
      rw [Option.some_inj, Prod.mk.injEq, Prod.mk.injEq] at h
      obtain ⟨-, -, h3⟩ := h
      rw [← h3] at hc
      simp at hc
    case pos =>
      rw [if_pos hok] at h
      cases hml : media_lookup_by_path st (truncate_sysfs_path e.path
          (devtype_depth devtype)) with
      | none =>
        rw [hml] at h
        rw [Option.some_inj, Prod.mk.injEq, Prod.mk.injEq] at h
        obtain ⟨-, -, h3⟩ := h
        rw [← h3] at hc
        simp at hc
      | some media =>
        rw [hml] at h
        cases hmj : get_uevent_param e (cs "MAJOR") with
        | none => rw [hmj] at h; exact absurd h (by simp)
        | some majs =>
          rw [hmj] at h
          cases hmi : get_uevent_param e (cs "MINOR") with
          | none => rw [hmi] at h; simp only [] at h; exact absurd h (by simp)
          | some mins =>
            rw [hmi] at h
            simp only [] at h
            cases hact : e.action with
            | action_add =>
              rw [hact] at h
              simp only [] at h
              cases hlk : blkdev_lookup_by_devno st (c_atoi majs) (c_atoi mins) with
              | some b =>
                rw [hlk] at h
                simp only [] at h
                split at h
                · rename_i hz
                  rw [Option.some_inj, Prod.mk.injEq, Prod.mk.injEq] at h
                  obtain ⟨-, h2, h3⟩ := h
                  rw [← h3] at hc
                  have hd : d = b.diskMajor := by
                    simp [List.mem_append] at hc
                    exact hc
                  rw [← h2, hd]
                  simpa using hz
                · rename_i hz
                  rw [Option.some_inj, Prod.mk.injEq, Prod.mk.injEq] at h
                  obtain ⟨-, -, h3⟩ := h
                  rw [← h3] at hc
                  simp at hc
              | none =>
                rw [hlk] at h
                simp only [] at h
                rw [Option.some_inj, Prod.mk.injEq, Prod.mk.injEq] at h
                obtain ⟨-, -, h3⟩ := h
                rw [← h3] at hc
                simp at hc
            | action_remove =>
              rw [hact] at h
              simp only [] at h
              cases hlk : blkdev_lookup_by_devno st (c_atoi majs) (c_atoi mins) with
              | none =>
                rw [hlk] at h
                rw [Option.some_inj, Prod.mk.injEq, Prod.mk.injEq] at h
                obtain ⟨-, -, h3⟩ := h
                rw [← h3] at hc
                simp at hc
              | some b =>
                rw [hlk] at h
                rw [Option.some_inj, Prod.mk.injEq, Prod.mk.injEq] at h
                obtain ⟨-, -, h3⟩ := h
                rw [← h3] at hc
                simp at hc
            | action_change =>
              rw [hact] at h
              simp only [] at h
              rw [Option.some_inj, Prod.mk.injEq, Prod.mk.injEq] at h
              obtain ⟨-, -, h3⟩ := h
              rw [← h3] at hc
              simp at hc

/-- Evaluation of the block handler's Remove path when the backing media is
registered: the handler performs the lookup and either does nothing (unknown
devno) or emits a single `notifyEject`, in both cases returning 0 and leaving
the state untouched. -/
theorem block_remove_eval (np : Nat) (st : Vstate) (e : uevent)
    (dt majs mins : List Char) (media : MediaRec)
    (ha : e.action = .action_remove)
    (hdt : get_uevent_param e (cs "DEVTYPE") = some dt)
    (hdisk : ((dt == cs "disk") || (dt == cs "partition")) = true)
    (hmaj : get_uevent_param e (cs "MAJOR") = some majs)
    (hmin : get_uevent_param e (cs "MINOR") = some mins)
    (hml : media_lookup_by_path st
      (truncate_sysfs_path e.path (devtype_depth dt)) = some media) :
    handle_block_event np st e =
      some (0, st,
        [Call.truncatePath e.path (devtype_depth dt)] ++
        (match blkdev_lookup_by_devno st (c_atoi majs) (c_atoi mins) with
         | none => []
         | some _ => [Call.notifyEject (c_atoi majs) (c_atoi mins)])) := by
  simp only [handle_block_event, hdt, hdisk, eq_self_iff_true, if_true, hml, hmaj, hmin, ha]
  cases hlk : blkdev_lookup_by_devno st (c_atoi majs) (c_atoi mins) with
  | none => simp only [hlk]; rw [List.append_nil]
  | some b => simp only [hlk]

/-- Witness state for remove-path claims: one partition block device `(8,1)`
attached to one registered media. -/
def stRem : Vstate :=
  { blkdevs := [{ major := 8, minor := 1, devpath := some (cs "/m/c/block/d/p1"),
                  devtype := cs "partition", diskMajor := 8 }],
    medias := [{ devpath := cs "/m/c", name := cs "card", serial := cs "sn",
                 attached := [(8, 1)] }],
    hostConnected := false, umsEnabled := false }

/-- A remove event for partition `(8,1)`. -/
def eRem : uevent :=
  { path := cs "/m/c/block/d/p1", action := .action_remove, subsystem := cs "block",
    params := [cs "DEVTYPE=partition", cs "MAJOR=8", cs "MINOR=1"], seqnum := 4 }

/-- C1: for a block-subsystem Remove with the backing media registered:
an unregistered devno makes the handler a no-op returning success; a
registered devno makes it emit exactly one `notifyEject`, zero `blkDestroy`
and zero `mediaRemoveBlk` calls, returning success with the registries
untouched; and the deferred ok-to-destroy callback is what detaches the
block device and erases it from the registry. -/
theorem uevent_C1_block_remove_two_phase (np : Nat) (st : Vstate) (e : uevent)
    (dt majs mins : List Char) (media : MediaRec)
    (ha : e.action = .action_remove)
    (hdt : get_uevent_param e (cs "DEVTYPE") = some dt)
    (hdisk : ((dt == cs "disk") || (dt == cs "partition")) = true)
    (hmaj : get_uevent_param e (cs "MAJOR") = some majs)
    (hmin : get_uevent_param e (cs "MINOR") = some mins)
    (hml : media_lookup_by_path st
      (truncate_sysfs_path e.path (devtype_depth dt)) = some media) :
    (blkdev_lookup_by_devno st (c_atoi majs) (c_atoi mins) = none →
      handle_block_event np st e =
        some (0, st, [Call.truncatePath e.path (devtype_depth dt)])) ∧
    (∀ b, blkdev_lookup_by_devno st (c_atoi majs) (c_atoi mins) = some b →
      handle_block_event np st e =
        some (0, st, [Call.truncatePath e.path (devtype_depth dt),
                      Call.notifyEject (c_atoi majs) (c_atoi mins)]) ∧
      countEject [Call.truncatePath e.path (devtype_depth dt),
                  Call.notifyEject (c_atoi majs) (c_atoi mins)] = 1 ∧
      countDestroy [Call.truncatePath e.path (devtype_depth dt),
                    Call.notifyEject (c_atoi majs) (c_atoi mins)] = 0 ∧
      countMediaRemove [Call.truncatePath e.path (devtype_depth dt),
                        Call.notifyEject (c_atoi majs) (c_atoi mins)] = 0) ∧
    (∀ (st2 : Vstate) (maj mn : Int),
      (cb_blkdev_ok_to_destroy st2 maj mn).1.blkdevs =
        st2.blkdevs.filter (fun b => !(b.major == maj && b.minor == mn)) ∧
      Call.blkDestroy maj mn ∈ (cb_blkdev_ok_to_destroy st2 maj mn).2) := by
  have hev := block_remove_eval np st e dt majs mins media ha hdt hdisk hmaj hmin hml
  refine ⟨?_, ?_, ?_⟩
  · intro hlk
    rw [hlk] at hev
    simpa using hev
  · intro b hlk
    rw [hlk] at hev
    exact ⟨hev, rfl, rfl, rfl⟩
  · intro st2 maj mn
    cases hmd : media_lookup_by_dev st2 maj mn with
    | none => simp [cb_blkdev_ok_to_destroy, hmd, blkdev_destroy]
    | some m =>
      simp [cb_blkdev_ok_to_destroy, hmd, blkdev_destroy, media_remove_blkdev]

/-- Concrete instance of C1: removing registered partition `(8,1)` emits
exactly the single `notifyEject` and leaves the state unchanged. -/
theorem uevent_C1_witness :
    handle_block_event 1 stRem eRem =
      some (0, stRem, [Call.truncatePath (cs "/m/c/block/d/p1") 3,
                       Call.notifyEject 8 1]) := by
  have h := (uevent_C1_block_remove_two_phase 1 stRem eRem
      (cs "partition") (cs "8") (cs "1")
      { devpath := cs "/m/c", name := cs "card", serial := cs "sn", attached := [(8, 1)] }
      rfl (by decide) (by decide) (by decide) (by decide) (by decide)).2.1
      { major := 8, minor := 1, devpath := some (cs "/m/c/block/d/p1"),
        devtype := cs "partition", diskMajor := 8 }
      (by decide)
  have h1 := h.1
  rw [show c_atoi (cs "8") = (8 : Int) from by decide,
    show c_atoi (cs "1") = (1 : Int) from by decide] at h1
  exact h1

/-- C2 counterexample to the claim as stated ("in either order"): enumerating
the partition first and the disk last (one disk, one partition) completes
without any `considerDisk` call at all — the placeholder machinery only
arms when the disk's add precedes a partition's add. -/
theorem uevent_C2_counterexample :
    (runBlock 1 stS0 [partEv (cs "1"), diskEv]).map (fun r => countConsider r.2) = some 0 ∧
    (runBlock 1 stS0 [partEv (cs "1"), diskEv]).isSome = true := by
  constructor
  · decide
  · decide

/-- C2 (amended): (a) in a sequence beginning with the disk's Add followed by
its `k ≥ 1` partitions' Adds in any order, the block handler calls
`considerDisk` exactly once over the whole run; (b) from the handler code
alone, a `considerDisk` call is only ever emitted when the disk's
pending-partition counter (in the post-state of the attachment) is zero —
never while it is still positive. -/
theorem uevent_C2_amended :
    (∀ (k : Nat) (todo : List (List Char)),
      1 ≤ k →
      todo.length = k →
      (todo.map c_atoi).Nodup →
      (∀ x ∈ todo, ∃ m : Nat, 1 ≤ m ∧ m ≤ k ∧ c_atoi x = (m : Int)) →
      ∃ stF tr, runBlock k stS0 (diskEv :: todo.map partEv) = some (stF, tr) ∧
        countConsider tr = 1) ∧
    (∀ (np : Nat) (st : Vstate) (e : uevent) (rc : Int) (stq : Vstate)
        (tr : List Call) (d : Int),
      handle_block_event np st e = some (rc, stq, tr) →
      Call.considerDisk d ∈ tr →
      blkdev_get_num_pending_partitions stq d = 0) := by
  constructor
  · intro k todo hk hlen hnd hrange
    have hdisk := disk_add_step k
    have hrun := run_parts k todo [] [(8, 0)] hrange (by simpa using hnd)
      (by rw [pend_nil, hlen])
    obtain ⟨stF, tr, hr, hcount⟩ := hrun
    refine ⟨stF, [Call.truncatePath diskPathS 2, Call.blkCreate 8 0,
      Call.mediaAddBlk 8 0] ++ tr, ?_, ?_⟩
    · simp only [runBlock, hdisk, hr]
    · have hne : todo.isEmpty = false := by
        cases todo with
        | nil => simp at hlen; omega
        | cons a l => rfl
      rw [hne] at hcount
      simp only [Bool.false_eq_true, if_false] at hcount
      rw [countConsider_append, hcount]
      rfl
  · intro np st e rc stq tr d h hc
    exact consider_only_at_zero np st e rc stq tr d h hc

/-- Concrete instance of the amended C2: disk add then partitions 1 and 2 in
order gives exactly one `considerDisk` over the run. -/
theorem uevent_C2_witness :
    ∃ stF tr, runBlock 2 stS0 (diskEv :: [cs "1", cs "2"].map partEv) = some (stF, tr) ∧
      countConsider tr = 1 := by
  refine uevent_C2_amended.1 2 [cs "1", cs "2"] (by decide) (by decide) (by decide) ?_
  intro x hx
  simp only [List.mem_cons, List.mem_singleton, List.not_mem_nil] at hx
  rcases hx with rfl | rfl | hx
  · exact ⟨1, by decide, by decide, by decide⟩
  · exact ⟨2, by decide, by decide, by decide⟩
  · exact absurd hx (by simp)

/-- Every successful block dispatch with a valid `DEVTYPE` starts its
collaborator calls with the path truncation at the depth chosen from
`DEVTYPE`. -/
theorem block_trace_head (np : Nat) (st : Vstate) (e : uevent) (dt : List Char)
    (hdt : get_uevent_param e (cs "DEVTYPE") = some dt)
    (hok : ((dt == cs "disk") || (dt == cs "partition")) = true) :
    ∀ rc stq tr, handle_block_event np st e = some (rc, stq, tr) →
      tr.head? = some (Call.truncatePath e.path (devtype_depth dt)) := by
  intro rc stq tr h
  simp only [handle_block_event, hdt, hok, eq_self_iff_true, if_true] at h
  cases hml : media_lookup_by_path st (truncate_sysfs_path e.path (devtype_depth dt)) with
  | none =>
    rw [hml] at h
    rw [Option.some_inj, Prod.mk.injEq, Prod.mk.injEq] at h
    obtain ⟨-, -, h3⟩ := h
    rw [← h3]
    rfl
  | some media =>
    rw [hml] at h
    cases hmj : get_uevent_param e (cs "MAJOR") with
    | none => rw [hmj] at h; exact absurd h (by simp)
    | some majs =>
      rw [hmj] at h
      cases hmi : get_uevent_param e (cs "MINOR") with
      | none => rw [hmi] at h; simp only [] at h; exact absurd h (by simp)
      | some mins =>
        rw [hmi] at h
        simp only [] at h
        cases hact : e.action with
        | action_add =>
          rw [hact] at h
          simp only [] at h
          cases hlk : blkdev_lookup_by_devno st (c_atoi majs) (c_atoi mins) with
          | some b =>
            rw [hlk] at h
            simp only [] at h
            split at h <;>
            · rw [Option.some_inj, Prod.mk.injEq, Prod.mk.injEq] at h
              obtain ⟨-, -, h3⟩ := h
              rw [← h3]
              rfl
          | none =>
            rw [hlk] at h
            simp only [] at h
            rw [Option.some_inj, Prod.mk.injEq, Prod.mk.injEq] at h
            obtain ⟨-, -, h3⟩ := h
            rw [← h3]
            rfl
        | action_remove =>
          rw [hact] at h
          simp only [] at h
          cases hlk : blkdev_lookup_by_devno st (c_atoi majs) (c_atoi mins) with
          | none =>
            rw [hlk] at h
            rw [Option.some_inj, Prod.mk.injEq, Prod.mk.injEq] at h
            obtain ⟨-, -, h3⟩ := h
            rw [← h3]
            rfl
          | some b =>
            rw [hlk] at h
            rw [Option.some_inj, Prod.mk.injEq, Prod.mk.injEq] at h
            obtain ⟨-, -, h3⟩ := h
            rw [← h3]
            rfl
        | action_change =>
          rw [hact] at h
          simp only [] at h
          rw [Option.some_inj, Prod.mk.injEq, Prod.mk.injEq] at h
          obtain ⟨-, -, h3⟩ := h
          rw [← h3]
          rfl

/-- C6: on a block event, `DEVTYPE` value `disk` makes the handler obtain the
media-backing path at depth 2, `partition` at depth 3, and any other value
makes it return `-EINVAL` (-22) untouched registries and no collaborator
calls. -/
theorem uevent_C6_devtype_dispatch (np : Nat) (st : Vstate) (e : uevent) (dt : List Char)
    (hdt : get_uevent_param e (cs "DEVTYPE") = some dt) :
    (dt = cs "disk" → ∀ rc stq tr, handle_block_event np st e = some (rc, stq, tr) →
      tr.head? = some (Call.truncatePath e.path 2)) ∧
    (dt = cs "partition" → ∀ rc stq tr, handle_block_event np st e = some (rc, stq, tr) →
      tr.head? = some (Call.truncatePath e.path 3)) ∧
    (dt ≠ cs "disk" → dt ≠ cs "partition" →
      handle_block_event np st e = some (-22, st, [])) := by
  refine ⟨?_, ?_, ?_⟩
  · rintro rfl rc stq tr h
    have := block_trace_head np st e (cs "disk") hdt (by decide) rc stq tr h
    rw [show devtype_depth (cs "disk") = 2 from by decide] at this
    exact this
  · rintro rfl rc stq tr h
    have := block_trace_head np st e (cs "partition") hdt (by decide) rc stq tr h
    rw [show devtype_depth (cs "partition") = 3 from by decide] at this
    exact this
  · intro hnd hnp
    have hok : ((dt == cs "disk") || (dt == cs "partition")) = false := by
      simp only [Bool.or_eq_false_iff, beq_eq_false_iff_ne, ne_eq]
      exact ⟨hnd, hnp⟩
    simp only [handle_block_event, hdt, hok, Bool.false_eq_true, if_false]

/-- Concrete instance of C6: a block event with `DEVTYPE=cdrom` is rejected
with `-EINVAL` and no state change. -/
theorem uevent_C6_witness :
    handle_block_event 1 stRem
        { path := cs "/m/c/block/d", action := .action_add, subsystem := cs "block",
          params := [cs "DEVTYPE=cdrom", cs "MAJOR=8", cs "MINOR=0"], seqnum := 9 }
      = some (-22, stRem, []) := by
  exact (uevent_C6_devtype_dispatch 1 stRem
      { path := cs "/m/c/block/d", action := .action_add, subsystem := cs "block",
        params := [cs "DEVTYPE=cdrom", cs "MAJOR=8", cs "MINOR=0"], seqnum := 9 }
      (cs "cdrom") (by decide)).2.2 (by decide) (by decide)

/-- An mmc remove event for an unregistered path. -/
def eMmcRem : uevent :=
  { path := cs "/nope", action := .action_remove, subsystem := cs "mmc",
    params := [], seqnum := 5 }

/-- A block remove event for unregistered devno `(8, 2)` (its media is the
one registered in `stRem`). -/
def eRemUnknown : uevent :=
  { path := cs "/m/c/block/d/p2", action := .action_remove, subsystem := cs "block",
    params := [cs "DEVTYPE=partition", cs "MAJOR=8", cs "MINOR=2"], seqnum := 6 }

/-- C7: an mmc Remove whose path has no registered media returns `-1` (an
error, not success) and changes nothing; a block Remove for an unknown
devno (with its media registered) returns `0` (success) — the not-found
outcomes of the two handlers differ. -/
theorem uevent_C7_notfound_asymmetry :
    (∀ (ser : List Char) (st : Vstate) (e : uevent),
      e.action = .action_remove →
      media_lookup_by_path st e.path = none →
      handle_mmc_event ser st e = some (-1, st, []) ∧ (-1 : Int) ≠ 0) ∧
    (∀ (np : Nat) (st : Vstate) (e : uevent) (dt majs mins : List Char) (media : MediaRec),
      e.action = .action_remove →
      get_uevent_param e (cs "DEVTYPE") = some dt →
      ((dt == cs "disk") || (dt == cs "partition")) = true →
      get_uevent_param e (cs "MAJOR") = some majs →
      get_uevent_param e (cs "MINOR") = some mins →
      media_lookup_by_path st
        (truncate_sysfs_path e.path (devtype_depth dt)) = some media →
      blkdev_lookup_by_devno st (c_atoi majs) (c_atoi mins) = none →
      handle_block_event np st e =
        some (0, st, [Call.truncatePath e.path (devtype_depth dt)])) := by
  constructor
  · intro ser st e ha hml
    constructor
    · simp only [handle_mmc_event, ha, hml]
    · decide
  · intro np st e dt majs mins media ha hdt hok hmaj hmin hml hlk
    have hev := block_remove_eval np st e dt majs mins media ha hdt hok hmaj hmin hml
    rw [hlk] at hev
    simpa using hev

/-- Concrete instance of C7: the mmc remove of an unknown path errors with
`-1`, while the block remove of unknown devno `(8,2)` succeeds with `0`. -/
theorem uevent_C7_witness :
    handle_mmc_event (cs "sn") stRem eMmcRem = some (-1, stRem, []) ∧
    handle_block_event 1 stRem eRemUnknown =
      some (0, stRem, [Call.truncatePath (cs "/m/c/block/d/p2") 3]) := by
  constructor
  · exact (uevent_C7_notfound_asymmetry.1 (cs "sn") stRem eMmcRem rfl (by decide)).1
  · have h := uevent_C7_notfound_asymmetry.2 1 stRem eRemUnknown
      (cs "partition") (cs "8") (cs "2")
      { devpath := cs "/m/c", name := cs "card", serial := cs "sn", attached := [(8, 1)] }
      rfl (by decide) (by decide) (by decide) (by decide) (by decide) (by decide)
    exact h

/-- C9: `get_uevent_param` returns NULL (`none`) when no param entry starts
with the key; the switch handler crashes (NULL `strcmp`) when `SWITCH_NAME`
is absent but is total when both its keys are present; the block handler
crashes when `DEVTYPE` is absent but is total when `DEVTYPE`, `MAJOR` and
`MINOR` are present; the mmc add handler crashes when `MMC_TYPE` is absent
but is total when `MMC_TYPE` and `MMC_NAME` are present. -/
theorem uevent_C9_param_presence :
    (∀ (e : uevent) (name : List Char),
      (∀ p ∈ e.params, isPfx name p = false) → get_uevent_param e name = none) ∧
    (∀ (st : Vstate) (e : uevent),
      get_uevent_param e (cs "SWITCH_NAME") = none → handle_switch_event st e = none) ∧
    (∀ (st : Vstate) (e : uevent) (nm stt : List Char),
      get_uevent_param e (cs "SWITCH_NAME") = some nm →
      get_uevent_param e (cs "SWITCH_STATE") = some stt →
      (handle_switch_event st e).isSome = true) ∧
    (∀ (np : Nat) (st : Vstate) (e : uevent),
      get_uevent_param e (cs "DEVTYPE") = none → handle_block_event np st e = none) ∧
    (∀ (np : Nat) (st : Vstate) (e : uevent) (dt majs mins : List Char),
      get_uevent_param e (cs "DEVTYPE") = some dt →
      get_uevent_param e (cs "MAJOR") = some majs →
      get_uevent_param e (cs "MINOR") = some mins →
      (handle_block_event np st e).isSome = true) ∧
    (∀ (ser : List Char) (st : Vstate) (e : uevent),
      e.action = .action_add →
      get_uevent_param e (cs "MMC_TYPE") = none → handle_mmc_event ser st e = none) ∧
    (∀ (ser : List Char) (st : Vstate) (e : uevent) (t nm : List Char),
      e.action = .action_add →
      get_uevent_param e (cs "MMC_TYPE") = some t →
      get_uevent_param e (cs "MMC_NAME") = some nm →
      (handle_mmc_event ser st e).isSome = true) := by
  refine ⟨?_, ?_, ?_, ?_, ?_, ?_, ?_⟩
  · intro e name habs
    have hfind : e.params.find? (fun p => isPfx name p) = none := by
      rw [List.find?_eq_none]
      intro p hp
      simp [habs p hp]
    simp [get_uevent_param, hfind]
  · intro st e hn
    simp [handle_switch_event, hn]
  · intro st e nm stt hn hs
    simp only [handle_switch_event, hn, hs]
    split
    · split <;> simp
    · simp
  · intro np st e hdt
    simp [handle_block_event, hdt]
  · intro np st e dt majs mins hdt hmaj hmin
    simp only [handle_block_event, hdt, hmaj, hmin]
    split
    · split
      · simp
      · split
        · split
          · split <;> simp
          · simp
        · split <;> simp
        · simp
    · simp
  · intro ser st e ha ht
    simp [handle_mmc_event, ha, ht]
  · intro ser st e t nm ha ht hn
    simp only [handle_mmc_event, ha, ht, hn]
    split <;> simp

/-- Concrete instances of C9: a switch event with no `SWITCH_NAME` crashes;
one with both keys is handled. -/
theorem uevent_C9_witness :
    handle_switch_event stRem
        { path := cs "/sw", action := .action_change, subsystem := cs "switch",
          params := [cs "FOO=1"], seqnum := 7 } = none ∧
    (handle_switch_event stRem
        { path := cs "/sw", action := .action_change, subsystem := cs "switch",
          params := [cs "SWITCH_NAME=gpio", cs "SWITCH_STATE=online"],
          seqnum := 8 }).isSome = true := by
  constructor
  · exact uevent_C9_param_presence.2.1 stRem
      { path := cs "/sw", action := .action_change, subsystem := cs "switch",
        params := [cs "FOO=1"], seqnum := 7 } (by decide)
  · exact uevent_C9_param_presence.2.2.1 stRem
      { path := cs "/sw", action := .action_change, subsystem := cs "switch",
        params := [cs "SWITCH_NAME=gpio", cs "SWITCH_STATE=online"], seqnum := 8 }
      (cs "gpio") (cs "online") (by decide) (by decide)

/-- C10: `ums_hostconnected_set false` clears both the connection flag and
the enabled flag; `ums_hostconnected_set true` sets the connection flag and
leaves the enabled flag unchanged; hence a `usb_mass_storage` switch event
whose state is not `online` clears both flags (and touches nothing else). -/
theorem uevent_C10_ums_disconnect :
    (∀ st : Vstate, (ums_hostconnected_set st false).hostConnected = false ∧
        (ums_hostconnected_set st false).umsEnabled = false) ∧
    (∀ st : Vstate, (ums_hostconnected_set st true).hostConnected = true ∧
        (ums_hostconnected_set st true).umsEnabled = st.umsEnabled) ∧
    (∀ (st : Vstate) (e : uevent) (stt : List Char),
      get_uevent_param e (cs "SWITCH_NAME") = some (cs "usb_mass_storage") →
      get_uevent_param e (cs "SWITCH_STATE") = some stt →
      stt ≠ cs "online" →
      handle_switch_event st e = some (0, ums_hostconnected_set st false, []) ∧
      (ums_hostconnected_set st false).umsEnabled = false ∧
      (ums_hostconnected_set st false).hostConnected = false ∧
      (ums_hostconnected_set st false).blkdevs = st.blkdevs ∧
      (ums_hostconnected_set st false).medias = st.medias) := by
  refine ⟨?_, ?_, ?_⟩
  · intro st
    exact ⟨rfl, rfl⟩
  · intro st
    exact ⟨rfl, rfl⟩
  · intro st e stt hn hs hne
    refine ⟨?_, rfl, rfl, rfl, rfl⟩
    simp only [handle_switch_event, hn, hs, eq_self_iff_true, if_true, if_neg hne]

/-- Concrete instance of C10: the `usb_mass_storage` offline switch event
clears both flags from a connected-and-enabled state. -/
theorem uevent_C10_witness :
    handle_switch_event
        { blkdevs := [], medias := [], hostConnected := true, umsEnabled := true }
        { path := cs "/sw", action := .action_change, subsystem := cs "switch",
          params := [cs "SWITCH_NAME=usb_mass_storage", cs "SWITCH_STATE=offline"],
          seqnum := 9 }
      = some (0, { blkdevs := [], medias := [], hostConnected := false,
                   umsEnabled := false }, []) := by
  have h := (uevent_C10_ums_disconnect.2.2
      { blkdevs := [], medias := [], hostConnected := true, umsEnabled := true }
      { path := cs "/sw", action := .action_change, subsystem := cs "switch",
        params := [cs "SWITCH_NAME=usb_mass_storage", cs "SWITCH_STATE=offline"],
        seqnum := 9 }
      (cs "offline") (by decide) (by decide) (by decide)).1
  exact h

/-- C3 (code bug): on the 4-byte datagram `"abc\\0"` whose first string has
no `@` (with `"z@w\\0"` the adjacent memory beyond the declared length), the
unbounded `'@'` scan crosses the NUL and the declared length: the parser
examines memory up to index 7 (≥ length 4), returns a "successfully" parsed
event whose path comes from beyond the buffer, and produces no parse error;
when no `@` exists anywhere in accessible memory, the scan runs off memory
entirely (a crash), still without any error result. -/
theorem uevent_C3_no_at_scan_overruns :
    (process_uevent_message memNoAt 4).map PState.maxRead = some 7 ∧
    4 ≤ 7 ∧
    (process_uevent_message memNoAt 4).map (fun ps => ps.ev.path) = some (some (cs "w")) ∧
    process_uevent_message (cs "abc" ++ [nulC]) 4 = none := by
  refine ⟨by decide, by decide, by decide, by decide⟩

/-- C4: parsing the canonical example buffer yields path `/devices/foo`,
action Add, subsystem `block`, seqnum 5, and exactly the three non-dedicated
parameters in arrival order at `param` indices 0, 1, 2, without reading past
the declared length. -/
theorem uevent_C4_concrete_parse :
    process_uevent_message bufC4 bufC4.length =
      some { ev := { path := some (cs "/devices/foo"), action := .action_add,
                     subsystem := some (cs "block"), seqnum := 5 },
             writes := [(0, cs "DEVTYPE=disk"), (1, cs "MAJOR=8"), (2, cs "MINOR=0")],
             paramIdx := 3,
             maxRead := bufC4.length - 1 } := by decide

set_option maxRecDepth 10000 in
/-- C5 (code bug): a message carrying 33 non-dedicated `KEY=VALUE` strings
makes the parser write all 33 of them through the unchecked `param_idx++`,
the last one at array index 32 = `UEVENT_PARAMS_MAX`, one past the fixed
`param[32]` array — excess entries are not dropped, they are stored out of
bounds (in C, corrupting whatever follows the array). -/
theorem uevent_C5_param_overflow :
    UEVENT_PARAMS_MAX = 32 ∧
    (process_uevent_message memOverflow memOverflow.length).map
        (fun ps => ps.writes.map Prod.fst) = some (List.range 33) ∧
    (process_uevent_message memOverflow memOverflow.length).map PState.paramIdx
      = some 33 ∧
    UEVENT_PARAMS_MAX ∈ List.range 33 := by
  refine ⟨rfl, by decide, by decide, by decide⟩

/-- C8: a parsed message none of whose strings is exactly `ACTION=add`,
`ACTION=change` or `ACTION=remove` leaves the zero-initialised action in
place: the event's action is Add, and no error is reported. -/
theorem uevent_C8_unknown_action_add (mem : List Char) (cnt : Nat) (out : PState)
    (hno : ∀ i < mem.length,
      matchesAt mem i (cs "ACTION=add" ++ [nulC]) = false ∧
      matchesAt mem i (cs "ACTION=change" ++ [nulC]) = false ∧
      matchesAt mem i (cs "ACTION=remove" ++ [nulC]) = false)
    (hp : process_uevent_message mem cnt = some out) :
    out.ev.action = uevent_action.action_add :=
  parseLoop_action_invariant mem cnt hno cnt 0 true
    { ev := initRaw, writes := [], paramIdx := 0, maxRead := 0 } out hp

/-- The unknown-action example buffer. -/
def bufC8 : List Char :=
  cs "X@p" ++ [nulC] ++ cs "ACTION=frobnicate" ++ [nulC] ++ cs "SUBSYSTEM=block" ++ [nulC]

/-- Concrete instance of C8: `ACTION=frobnicate` parses without error and the
event's action is Add. -/
theorem uevent_C8_witness :
    (process_uevent_message bufC8 bufC8.length).map (fun out => out.ev.action)
      = some uevent_action.action_add := by
  cases hp : process_uevent_message bufC8 bufC8.length with
  | none => exact absurd hp (by decide)
  | some out =>
    have hact := uevent_C8_unknown_action_add bufC8 bufC8.length out (by decide) hp
    simp [hact]

end Vold
